/-
  Verification of the Kerberos message-integrity utilities of sspi-rs
  (src/kerberos/utils.rs): message framing, MIC token generation and
  verification, and service-principal-name parsing.

  External collaborators (the picky_krb MIC token codec, the AES-SHA keyed
  checksum primitive, and the ASN.1 DER encoder) are modelled as an abstract
  record of capabilities `Externals`; theorems that need their behaviour take
  it as explicit hypotheses, and concrete instantiations are supplied for
  witnesses.
-/
import Mathlib

namespace Sspi

/-- Byte sequences (`Vec<u8>` / `&[u8]`); each entry is one byte value. -/
abbrev Bytes := List Nat

/-- The error kinds of the library that this core uses (`ErrorKind`). -/
inductive ErrorKind where
  | InvalidParameter
  | DecryptFailure
  | MessageAltered
  | DecodeFailure
  | EncodingFailure
  deriving DecidableEq, Repr

/-- `Error { error_type, description }`. -/
structure Error where
  kind : ErrorKind
  msg : String
  deriving DecidableEq, Repr

/-- `Result<T>` of the library: success or an `Error`. -/
abbrev Result (α : Type) := Except Error α

instance {ε α : Type} [DecidableEq ε] [DecidableEq α] : DecidableEq (Except ε α) := fun x y =>
  match x, y with
  | .ok a, .ok b =>
    if h : a = b then .isTrue (by rw [h]) else .isFalse (by intro hc; cases hc; exact h rfl)
  | .error a, .error b =>
    if h : a = b then .isTrue (by rw [h]) else .isFalse (by intro hc; cases hc; exact h rfl)
  | .ok _, .error _ => .isFalse (by intro hc; cases hc)
  | .error _, .ok _ => .isFalse (by intro hc; cases hc)

/-- AES strength selector (`picky_krb::crypto::aes::AesSize`). -/
inductive AesSize where
  | Aes128
  | Aes256
  deriving DecidableEq, Repr

/-- Modelled from the spec: `EncryptionParams` (crate::kerberos::encryption_params,
not under src/). Holds the negotiated key material: optional `session_key`,
optional `sub_session_key`, and the optional negotiated AES strength as exposed
by its `aes_size()` accessor (the spec: "aes_strength defaults to Aes256 when
unset", so the source reads it as `params.aes_size().unwrap_or(AesSize::Aes256)`). -/
structure EncryptionParams where
  session_key : Option Bytes
  sub_session_key : Option Bytes
  aes_size : Option AesSize
  deriving DecidableEq, Repr

/-- The GSS-API MIC token as exposed by `picky_krb::gss_api::MicToken`:
a flags byte, a 64-bit sequence number, and the checksum field. -/
structure MicToken where
  flags : Nat
  seq_number : Nat
  checksum : Bytes
  deriving DecidableEq, Repr

/-- `MicToken::with_initiator_flags()`: a fresh token carrying the initiator
flag byte. The concrete flag value is opaque here; what matters for the
properties proved is that it is a fixed constant. -/
def MicToken.with_initiator_flags : MicToken :=
  { flags := 0, seq_number := 0, checksum := [] }

/-- `MicToken::with_seq_number(n)`. -/
def MicToken.with_seq_number (t : MicToken) (n : Nat) : MicToken :=
  { t with seq_number := n }

/-- `MicToken::set_checksum(c)`. -/
def MicToken.set_checksum (t : MicToken) (c : Bytes) : MicToken :=
  { t with checksum := c }

/-- `picky_krb::constants::key_usages::INITIATOR_SIGN` (RFC 4121
KG-USAGE-INITIATOR-SIGN = 25). Only its identity matters for the proofs. -/
def INITIATOR_SIGN : Int := 25

/-- The external capabilities consumed by the core, kept abstract:
  * `checksum_sha_aes key usage payload size` — the keyed checksum primitive
    (`picky_krb::crypto::aes::checksum_sha_aes`); being a function, it is
    deterministic by construction;
  * `mic_decode` / `mic_encode` — the MIC token wire codec
    (`MicToken::decode` / `MicToken::encode`);
  * `mic_header flags seq` — `MicToken::header()`, the wire encoding of all
    token fields except the checksum; it depends only on the flags byte and
    the sequence number;
  * `mech_list_der` — `picky_asn1_der::to_vec(&get_mech_list())`;
    `get_mech_list` (crate::kerberos::client::generators, not under src/) is,
    per the spec, a fixed context-binding constant, so its DER encoding is one
    fixed `Result` value. -/
structure Externals where
  checksum_sha_aes : Bytes → Int → Bytes → AesSize → Result Bytes
  mic_decode : Bytes → Result MicToken
  mic_encode : MicToken → Result Bytes
  mic_header : Nat → Nat → Bytes
  mech_list_der : Result Bytes

/-- Big-endian byte encoding of a `u32` (`u32::to_be_bytes`). -/
def u32_to_be_bytes (n : Nat) : Bytes :=
  [n / 2 ^ 24 % 256, n / 2 ^ 16 % 256, n / 2 ^ 8 % 256, n % 256]

/-- Big-endian value of a byte sequence (how a streaming reader interprets
the 4-byte length prefix). -/
def be_value (l : Bytes) : Nat :=
  l.foldl (fun a b => a * 256 + b) 0

/-- `serialize_message` (src/kerberos/utils.rs:12-23), parameterized by the
result of the external DER encoder on the message (`picky_asn1_der::to_writer`
appends the encoded body to the buffer). Mirrors the source: reserve four zero
bytes, append the encoded body, then overwrite the first four bytes with
`(data.len() as u32 - 4).to_be_bytes()`; the `as u32` cast and the `u32`
subtraction are modelled with explicit wrapping arithmetic modulo 2^32. -/
def serialize_message (encoded : Result Bytes) : Result Bytes := do
  let data : Bytes := [0, 0, 0, 0]
  let body ← encoded
  let data := data ++ body
  let len := (data.length % 2 ^ 32 + (2 ^ 32 - 4)) % 2 ^ 32
  pure (u32_to_be_bytes len ++ data.drop 4)

/-- `validate_mic_token` (src/kerberos/utils.rs:25-47): decode the raw token,
build the checksum input from the DER-encoded mechanism list and the token
header, select the key (sub-session key preferred over session key, else
DecryptFailure), recompute the checksum, and compare it with the token's
claimed checksum (mismatch: MessageAltered). -/
def validate_mic_token (ext : Externals) (raw_token : Bytes) (key_usage : Int)
    (params : EncryptionParams) : Result Unit := do
  let token ← ext.mic_decode raw_token
  let mech ← ext.mech_list_der
  let payload := mech ++ ext.mic_header token.flags token.seq_number
  let key ← match params.sub_session_key with
    | some key => pure key
    | none => match params.session_key with
      | some key => pure key
      | none => throw { kind := .DecryptFailure, msg := "unable to obtain decryption key" }
  let checksum ← ext.checksum_sha_aes key key_usage payload (params.aes_size.getD AesSize.Aes256)
  if checksum ≠ token.checksum then
    throw { kind := .MessageAltered, msg := "bad checksum of the mic token" }
  else
    pure ()

/-- `generate_initiator_raw` (src/kerberos/utils.rs:49-65): build an
initiator-flagged token with the given sequence number, append its header to
the caller's payload, checksum that input with the fixed `INITIATOR_SIGN`
key usage and fixed `Aes256` strength, store the checksum, and encode. -/
def generate_initiator_raw (ext : Externals) (payload : Bytes) (seq_number : Nat)
    (session_key : Bytes) : Result Bytes := do
  let mic_token := MicToken.with_initiator_flags.with_seq_number seq_number
  let payload := payload ++ ext.mic_header mic_token.flags mic_token.seq_number
  let checksum ← ext.checksum_sha_aes session_key INITIATOR_SIGN payload AesSize.Aes256
  let mic_token := mic_token.set_checksum checksum
  ext.mic_encode mic_token

/-- `unwrap_hostname` (src/kerberos/utils.rs:67-73). -/
def unwrap_hostname (hostname : Option String) : Result String :=
  match hostname with
  | some hostname => .ok hostname
  | none => .error { kind := .InvalidParameter, msg := "The hostname is not provided" }

/-- The error kind of a result, when it is an error. -/
def error_kind {α : Type} : Result α → Option ErrorKind
  | .error e => some e.kind
  | .ok _ => none

/-- The value of a result, when it succeeded. -/
def result_ok {α : Type} : Result α → Option α
  | .ok a => some a
  | .error _ => none

/-- The post-key-selection tail of `validate_mic_token`: recompute the checksum
with the given key over the given input and compare with the claimed checksum.
Used by theorems to state exactly which key and which checksum input the
verifier uses. -/
def check_with_key (ext : Externals) (key : Bytes) (key_usage : Int)
    (payload : Bytes) (size : AesSize) (claimed : Bytes) : Result Unit := do
  let checksum ← ext.checksum_sha_aes key key_usage payload size
  if checksum ≠ claimed then
    throw { kind := .MessageAltered, msg := "bad checksum of the mic token" }
  else
    pure ()

/-- The checksum input `validate_mic_token` constructs for a decoded token:
the DER-encoded mechanism list followed by the token's header bytes. -/
def mic_checksum_input (ext : Externals) (mech : Bytes) (token : MicToken) : Bytes :=
  mech ++ ext.mic_header token.flags token.seq_number

/-- Index of the first element satisfying `p` (`str::find`). -/
def find_first {α : Type} (p : α → Bool) : List α → Option Nat
  | [] => none
  | x :: xs => if p x then some 0 else (find_first p xs).map (· + 1)

/-- `parse_target_name` (src/kerberos/utils.rs:75-95) over the characters of
the input string: locate the first '/', fail with InvalidParameter when it is
absent, first, or last, otherwise split around it. Character granularity is
faithful to the source's byte indices because '/' is a one-byte ASCII
character (see the byte-level model below for that argument made precise);
the error message texts are paraphrased. -/
def parse_target_name (target_name : List Char) : Result (List Char × List Char) :=
  match find_first (fun c => c = '/') target_name with
  | none =>
    .error { kind := .InvalidParameter, msg := "Invalid service principal name: missing separator" }
  | some divider =>
    if divider = 0 || divider = target_name.length - 1 then
      .error { kind := .InvalidParameter, msg := "Invalid service principal name" }
    else
      .ok (target_name.take divider, target_name.drop (divider + 1))

/-- A concrete instantiation of the external capabilities, used to evaluate
the embedded operations at concrete inputs: an injective toy codec
(`flags :: seq :: checksum`) and a keyed checksum that tags the payload with
the key; both are deterministic functions and the codec round-trips. -/
def concreteExt : Externals where
  checksum_sha_aes := fun key _usage payload _size => .ok (key ++ payload)
  mic_decode := fun raw => match raw with
    | f :: s :: rest => .ok { flags := f, seq_number := s, checksum := rest }
    | _ => .error { kind := .DecodeFailure, msg := "mic token decode" }
  mic_encode := fun t => .ok (t.flags :: t.seq_number :: t.checksum)
  mic_header := fun f s => [f, s]
  mech_list_der := .ok [1, 2, 3]

/-- Length in bytes of a UTF-8 character encoding whose lead byte is `b`, or
`none` when `b` cannot start a character. -/
def charLen (b : Nat) : Option Nat :=
  if b < 128 then some 1
  else if b < 192 then none
  else if b < 224 then some 2
  else if b < 240 then some 3
  else if b < 248 then some 4
  else none

/-- UTF-8 continuation byte (`0x80..0xBF`). -/
def isCont (b : Nat) : Bool :=
  decide (128 ≤ b) && decide (b < 192)

/-- UTF-8 scanner state machine: `utf8Ok k s` holds when, starting with `k`
continuation bytes still pending, `s` is a well-formed tail — `k`
continuation bytes followed by a concatenation of whole characters. -/
def utf8Ok (k : Nat) (s : List Nat) : Bool :=
  match s with
  | [] => decide (k = 0)
  | b :: rest =>
    match k with
    | 0 =>
      match charLen b with
      | none => false
      | some n => utf8Ok (n - 1) rest
    | k + 1 => isCont b && utf8Ok k rest

/-- Structural UTF-8 validity of a byte sequence. -/
def validUtf8 (s : List Nat) : Bool := utf8Ok 0 s

/-- `isBoundaryAux k s i`: starting with `k` continuation bytes pending,
after consuming `i` bytes of `s` the scanner sits exactly between two
characters (and `i` does not run past the end of `s`). -/
def isBoundaryAux (k : Nat) (s : List Nat) (i : Nat) : Bool :=
  match i with
  | 0 => decide (k = 0)
  | i + 1 =>
    match s with
    | [] => false
    | b :: rest =>
      match k with
      | 0 =>
        match charLen b with
        | none => false
        | some n => isBoundaryAux (n - 1) rest i
      | k + 1 => isCont b && isBoundaryAux k rest i

/-- Byte position `i` of `s` lies on a character boundary of the UTF-8 byte
sequence `s` (0 and the end of the sequence are boundaries). -/
def isBoundary (s : List Nat) (i : Nat) : Bool := isBoundaryAux 0 s i

/-- Rust `&str` range slicing `&s[lo..hi]`: a panic (modelled as `none`)
unless `lo ≤ hi ≤ s.len()` and both endpoints are character boundaries. -/
def str_slice (s : List Nat) (lo hi : Nat) : Option (List Nat) :=
  if lo ≤ hi ∧ hi ≤ s.length ∧ isBoundary s lo ∧ isBoundary s hi then
    some ((s.drop lo).take (hi - lo))
  else none

/-- Byte-level model of `parse_target_name` over the input string's UTF-8
bytes, with Rust's checked slicing explicit: `none` models a panic from an
out-of-range or non-character-boundary slice, `some r` the function's
result. `str::find('/')` is the byte index of the first 0x2F byte. -/
def parse_target_name_bytes (target_name : List Nat) :
    Option (Result (List Nat × List Nat)) :=
  match find_first (fun b => b = 47) target_name with
  | none =>
    some (.error { kind := .InvalidParameter,
                   msg := "Invalid service principal name: missing separator" })
  | some divider =>
    if divider = 0 || divider = target_name.length - 1 then
      some (.error { kind := .InvalidParameter, msg := "Invalid service principal name" })
    else
      match str_slice target_name 0 divider,
            str_slice target_name (divider + 1) target_name.length with
      | some service_name, some service_principal_name =>
        some (.ok (service_name, service_principal_name))
      | _, _ => none

theorem find_first_append_not {α : Type} (p : α → Bool) (l₁ l₂ : List α)
    (h : ∀ x ∈ l₁, p x = false) :
    find_first p (l₁ ++ l₂) = (find_first p l₂).map (· + l₁.length) := by
  induction l₁ with
  | nil => simp [Option.map_id']
  | cons a l ih =>
    have ha : p a = false := h a (List.mem_cons_self a l)
    simp only [List.cons_append, find_first, ha, Bool.false_eq_true, if_false, List.append_eq]
    rw [ih (fun x hx => h x (List.mem_cons_of_mem a hx))]
    cases find_first p l₂
    · simp
    · simp
      omega

theorem find_first_eq_some {α : Type} (p : α → Bool) (l : List α) (d : Nat)
    (h : find_first p l = some d) :
    d < l.length ∧ ∃ a, l.get? d = some a ∧ p a = true := by
  induction l generalizing d with
  | nil => simp [find_first] at h
  | cons a l ih =>
    by_cases hpa : p a = true
    · simp [find_first, hpa] at h
      subst h
      exact ⟨Nat.succ_pos _, a, rfl, hpa⟩
    · simp [find_first, hpa] at h
      obtain ⟨d', hd', rfl⟩ := h
      obtain ⟨hlt, b, hb, hpb⟩ := ih d' hd'
      exact ⟨by simpa using Nat.succ_lt_succ hlt, b, by simpa using hb, hpb⟩

theorem find_first_take {α : Type} (p : α → Bool) (l : List α) (d : Nat)
    (h : find_first p l = some d) :
    ∀ x ∈ l.take d, p x = false := by
  induction l generalizing d with
  | nil => simp [find_first] at h
  | cons a l ih =>
    by_cases hpa : p a = true
    · simp [find_first, hpa] at h
      subst h
      simp
    · simp [find_first, hpa] at h
      obtain ⟨d', hd', rfl⟩ := h
      intro x hx
      rw [List.take_succ_cons] at hx
      rcases List.mem_cons.mp hx with rfl | hx
      · simpa using hpa
      · exact ih d' hd' x hx

theorem find_first_eq_none {α : Type} (p : α → Bool) (l : List α)
    (h : ∀ x ∈ l, p x = false) : find_first p l = none := by
  induction l with
  | nil => rfl
  | cons a l ih =>
    have ha : p a = false := h a (List.mem_cons_self a l)
    simp only [find_first, ha, Bool.false_eq_true, if_false]
    rw [ih (fun x hx => h x (List.mem_cons_of_mem a hx))]
    rfl

theorem drop_eq_cons_of_get? {α : Type} (l : List α) (d : Nat) (a : α)
    (h : l.get? d = some a) : l.drop d = a :: l.drop (d + 1) := by
  induction l generalizing d with
  | nil => simp at h
  | cons b l ih =>
    cases d with
    | zero => simp at h; simp [h]
    | succ d' =>
      simp only [List.get?] at h
      simpa using ih d' h

/-- C7: for all non-empty strings `a` and `b` containing no '/',
`parse_target_name (a ++ "/" ++ b)` succeeds and returns exactly `(a, b)`. -/
theorem parse_target_name_roundtrip (a b : List Char) (ha : a ≠ []) (hb : b ≠ [])
    (hna : '/' ∉ a) (hnb : '/' ∉ b) :
    parse_target_name (a ++ '/' :: b) = .ok (a, b) := by
  have hfind : find_first (fun c => decide (c = '/')) (a ++ '/' :: b) = some a.length := by
    rw [find_first_append_not _ a ('/' :: b) (by
      intro x hx
      simp only [decide_eq_false_iff_not]
      intro hex
      exact hna (hex ▸ hx))]
    simp [find_first]
  have h0 : a.length ≠ 0 := fun hc => ha (List.length_eq_zero.mp hc)
  have h1 : a.length ≠ (a ++ '/' :: b).length - 1 := by
    have hbl : b.length ≠ 0 := fun hc => hb (List.length_eq_zero.mp hc)
    simp only [List.length_append, List.length_cons]
    omega
  have htake : (a ++ '/' :: b).take a.length = a := List.take_left a ('/' :: b)
  have hdrop : (a ++ '/' :: b).drop (a.length + 1) = b := by
    have h2 : a ++ '/' :: b = (a ++ ['/']) ++ b := by simp
    have h3 : a.length + 1 = (a ++ ['/']).length := by simp
    rw [h2, h3, List.drop_left]
  unfold parse_target_name
  rw [hfind]
  simp [h0, h1, htake, hdrop, hb]

/-- Witness for the C7 theorem at `a = "E"`, `b = "p"`. -/
theorem parse_target_name_roundtrip_witness :
    parse_target_name (['E'] ++ '/' :: ['p']) = .ok (['E'], ['p']) :=
  parse_target_name_roundtrip ['E'] ['p'] (by decide) (by decide) (by decide) (by decide)

/-- C8 counterexample: `"a/b/"` ends in '/', yet `parse_target_name` succeeds
(splitting at the first '/'), so the claim that every input whose last
character is '/' fails with InvalidParameter is false as stated. -/
theorem parse_target_name_trailing_slash_cex :
    (['a', '/', 'b', '/'] : List Char).getLast? = some '/'
    ∧ parse_target_name ['a', '/', 'b', '/'] = .ok (['a'], ['b', '/']) := by
  decide

/-- C8 (amended): `parse_target_name` fails with the InvalidParameter error
kind for every input with no '/' (including the empty string), for every input
whose first character is '/', and for every input whose FIRST '/' is its last
character (i.e. a trailing '/' preceded by no other '/'). -/
theorem parse_target_name_invalid (s t : List Char) :
    ('/' ∉ s → error_kind (parse_target_name s) = some ErrorKind.InvalidParameter)
    ∧ error_kind (parse_target_name ('/' :: t)) = some ErrorKind.InvalidParameter
    ∧ ('/' ∉ t →
        error_kind (parse_target_name (t ++ ['/'])) = some ErrorKind.InvalidParameter) := by
  refine ⟨?_, ?_, ?_⟩
  · intro hs
    have hfind : find_first (fun c => decide (c = '/')) s = none := by
      apply find_first_eq_none
      intro x hx
      simp only [decide_eq_false_iff_not]
      intro hex
      exact hs (hex ▸ hx)
    unfold parse_target_name
    rw [hfind]
    rfl
  · have hfind : find_first (fun c => decide (c = '/')) ('/' :: t) = some 0 := by
      simp [find_first]
    unfold parse_target_name
    rw [hfind]
    simp [error_kind]
  · intro ht
    have hfind : find_first (fun c => decide (c = '/')) (t ++ ['/']) = some t.length := by
      rw [find_first_append_not _ t ['/'] (by
        intro x hx
        simp only [decide_eq_false_iff_not]
        intro hex
        exact ht (hex ▸ hx))]
      simp [find_first]
    have hlen : t.length = (t ++ ['/']).length - 1 := by simp
    unfold parse_target_name
    rw [hfind]
    simp [← hlen, error_kind]

/-- Witness for the C8 amended theorem at `s = "ab"`, `t = "a"`. -/
theorem parse_target_name_invalid_witness :
    error_kind (parse_target_name ['a', 'b']) = some ErrorKind.InvalidParameter
    ∧ error_kind (parse_target_name ('/' :: ['a'])) = some ErrorKind.InvalidParameter
    ∧ error_kind (parse_target_name (['a'] ++ ['/'])) = some ErrorKind.InvalidParameter :=
  ⟨(parse_target_name_invalid ['a', 'b'] ['a']).1 (by decide),
   (parse_target_name_invalid ['a', 'b'] ['a']).2.1,
   (parse_target_name_invalid ['a', 'b'] ['a']).2.2 (by decide)⟩

/-- C9: whenever `parse_target_name s` succeeds with `(sc, inst)`, the split is
on the first '/' of `s`: `sc` contains no '/', and `sc ++ "/" ++ inst`
reconstructs `s` exactly. -/
theorem parse_target_name_split (s sc inst : List Char)
    (h : parse_target_name s = .ok (sc, inst)) :
    '/' ∉ sc ∧ sc ++ '/' :: inst = s := by
  unfold parse_target_name at h
  split at h
  · cases h
  · rename_i d hfind
    split at h
    · cases h
    · have hsc : sc = s.take d := by cases h; rfl
      have hinst : inst = s.drop (d + 1) := by cases h; rfl
      obtain ⟨hd, c, hc, hpc⟩ := find_first_eq_some _ s d hfind
      have hslash : c = '/' := of_decide_eq_true hpc
      subst hslash
      constructor
      · rw [hsc]
        intro hmem
        have := find_first_take _ s d hfind '/' hmem
        simp at this
      · rw [hsc, hinst]
        have hdrop : s.drop d = '/' :: s.drop (d + 1) := drop_eq_cons_of_get? s d '/' hc
        calc s.take d ++ '/' :: s.drop (d + 1) = s.take d ++ s.drop d := by rw [hdrop]
          _ = s := List.take_append_drop d s

/-- Witness for the C9 theorem at `s = "a/b"`. -/
theorem parse_target_name_split_witness :
    '/' ∉ (['a'] : List Char) ∧ ['a'] ++ '/' :: ['b'] = ['a', '/', 'b'] :=
  parse_target_name_split ['a', '/', 'b'] ['a'] ['b'] (by decide)

theorem serialize_message_ok (body : Bytes) :
    serialize_message (Except.ok body) =
      .ok (u32_to_be_bytes (body.length % 2 ^ 32) ++ body) := by
  unfold serialize_message
  have harith : ((([0, 0, 0, 0] : Bytes) ++ body).length % 2 ^ 32 + (2 ^ 32 - 4)) % 2 ^ 32
      = body.length % 2 ^ 32 := by
    have hp : (2 : Nat) ^ 32 = 4294967296 := by norm_num
    simp only [List.length_append, List.length_cons, List.length_nil, hp]
    omega
  have hdrop : (([0, 0, 0, 0] : Bytes) ++ body).drop 4 = body := rfl
  simp only [Bind.bind, Except.bind, harith, hdrop, pure]
  rfl

theorem be_value_u32_to_be_bytes (n : Nat) (h : n < 2 ^ 32) :
    be_value (u32_to_be_bytes n) = n := by
  unfold be_value u32_to_be_bytes
  simp only [List.foldl]
  have hp : (2 : Nat) ^ 32 = 4294967296 := by norm_num
  rw [hp] at h
  have h24 : (2 : Nat) ^ 24 = 16777216 := by norm_num
  have h16 : (2 : Nat) ^ 16 = 65536 := by norm_num
  have h8 : (2 : Nat) ^ 8 = 256 := by norm_num
  rw [h24, h16, h8]
  omega

/-- C6 counterexample: for a body of 2^32 bytes the `as u32` cast wraps, so
the 4-byte length prefix reads 0 while the output carries 2^32 body bytes;
the claim fails for bodies of at least 2^32 bytes ("regardless of the encoded
body's size" is too strong). -/
theorem serialize_message_big_cex :
    serialize_message (Except.ok (List.replicate (2 ^ 32) 0)) =
      .ok (([0, 0, 0, 0] : Bytes) ++ List.replicate (2 ^ 32) 0)
    ∧ be_value ((([0, 0, 0, 0] : Bytes) ++ List.replicate (2 ^ 32) 0).take 4)
      ≠ (([0, 0, 0, 0] : Bytes) ++ List.replicate (2 ^ 32) 0).length - 4 := by
  constructor
  · rw [serialize_message_ok]
    have : (List.replicate (2 ^ 32) (0 : Nat)).length % 2 ^ 32 = 0 := by
      rw [List.length_replicate, Nat.mod_self]
    rw [this]
    rfl
  · have htake : ((([0, 0, 0, 0] : Bytes) ++ List.replicate (2 ^ 32) 0).take 4)
        = ([0, 0, 0, 0] : Bytes) := rfl
    rw [htake]
    have hlen : ((([0, 0, 0, 0] : Bytes) ++ List.replicate (2 ^ 32) 0).length) = 4 + 2 ^ 32 := by
      rw [List.length_append, List.length_replicate]
      rfl
    rw [hlen]
    have hbe : be_value ([0, 0, 0, 0] : Bytes) = 0 := rfl
    rw [hbe]
    norm_num

/-- C6 (amended): for every encoded body of fewer than 2^32 bytes,
`serialize_message` returns a buffer of exactly `4 + len(body)` bytes whose
first 4 bytes, read as a big-endian u32, equal `len(output) - 4`. -/
theorem serialize_message_length_prefix (body out : Bytes) (hlt : body.length < 2 ^ 32)
    (hs : serialize_message (Except.ok body) = .ok out) :
    out.length = 4 + body.length ∧ be_value (out.take 4) = out.length - 4 := by
  rw [serialize_message_ok] at hs
  have hout : out = u32_to_be_bytes (body.length % 2 ^ 32) ++ body := by
    cases hs
    rfl
  have hmod : body.length % 2 ^ 32 = body.length := Nat.mod_eq_of_lt hlt
  rw [hout, hmod]
  have hlen4 : (u32_to_be_bytes body.length).length = 4 := rfl
  constructor
  · simp [u32_to_be_bytes]
    omega
  · have htake : (u32_to_be_bytes body.length ++ body).take 4 = u32_to_be_bytes body.length := by
      rw [← hlen4]
      exact List.take_left _ _
    rw [htake, be_value_u32_to_be_bytes body.length hlt]
    simp [u32_to_be_bytes]

/-- Witness for the C6 amended theorem at `body = [7, 8]`. -/
theorem serialize_message_length_prefix_witness :
    ([0, 0, 0, 2, 7, 8] : Bytes).length = 4 + ([7, 8] : Bytes).length
    ∧ be_value (([0, 0, 0, 2, 7, 8] : Bytes).take 4) = ([0, 0, 0, 2, 7, 8] : Bytes).length - 4 :=
  serialize_message_length_prefix [7, 8] [0, 0, 0, 2, 7, 8] (by norm_num) (by decide)

theorem validate_eq_key_match (ext : Externals) (raw_token : Bytes) (key_usage : Int)
    (params : EncryptionParams) (token : MicToken) (mech : Bytes)
    (hdec : ext.mic_decode raw_token = .ok token)
    (hmech : ext.mech_list_der = .ok mech) :
    validate_mic_token ext raw_token key_usage params =
      match params.sub_session_key, params.session_key with
      | some key, _ =>
        check_with_key ext key key_usage (mic_checksum_input ext mech token)
          (params.aes_size.getD AesSize.Aes256) token.checksum
      | none, some key =>
        check_with_key ext key key_usage (mic_checksum_input ext mech token)
          (params.aes_size.getD AesSize.Aes256) token.checksum
      | none, none =>
        .error { kind := .DecryptFailure, msg := "unable to obtain decryption key" } := by
  obtain ⟨ses, sub, aes⟩ := params
  unfold validate_mic_token check_with_key mic_checksum_input
  simp only [hdec, hmech]
  cases sub <;> cases ses <;> rfl

theorem validate_usable_key (ext : Externals) (raw_token : Bytes) (key_usage : Int)
    (params : EncryptionParams) (token : MicToken) (mech key : Bytes)
    (hdec : ext.mic_decode raw_token = .ok token)
    (hmech : ext.mech_list_der = .ok mech)
    (hkey : params.sub_session_key = some key ∨
      (params.sub_session_key = none ∧ params.session_key = some key)) :
    validate_mic_token ext raw_token key_usage params =
      check_with_key ext key key_usage (mic_checksum_input ext mech token)
        (params.aes_size.getD AesSize.Aes256) token.checksum := by
  have hsel := validate_eq_key_match ext raw_token key_usage params token mech hdec hmech
  rcases hkey with hsub | ⟨hsub, hses⟩
  · rw [hsel, hsub]
  · rw [hsel, hsub, hses]

/-- C2: for every raw token that decodes successfully (and with the fixed
mechanism-list encoding available), `validate_mic_token` selects the
verification key by this exact policy: `sub_session_key` when present (the
`session_key` is then ignored, even if present and different), else
`session_key`, else the call fails with the DecryptFailure error — in that
last case the result is this error for EVERY checksum capability, i.e. no
checksum is computed. -/
theorem validate_mic_token_key_selection (ext : Externals) (raw_token : Bytes) (key_usage : Int)
    (params : EncryptionParams) (token : MicToken) (mech : Bytes)
    (hdec : ext.mic_decode raw_token = .ok token)
    (hmech : ext.mech_list_der = .ok mech) :
    validate_mic_token ext raw_token key_usage params =
      match params.sub_session_key, params.session_key with
      | some key, _ =>
        check_with_key ext key key_usage (mic_checksum_input ext mech token)
          (params.aes_size.getD AesSize.Aes256) token.checksum
      | none, some key =>
        check_with_key ext key key_usage (mic_checksum_input ext mech token)
          (params.aes_size.getD AesSize.Aes256) token.checksum
      | none, none =>
        .error { kind := .DecryptFailure, msg := "unable to obtain decryption key" } :=
  validate_eq_key_match ext raw_token key_usage params token mech hdec hmech

/-- Witness for the C2 theorem: a decodable token with both keys present and
different; the sub-session key `[2]` is the one used, not `[1]`. -/
theorem validate_mic_token_key_selection_witness :
    validate_mic_token concreteExt [0, 0] 7
      { session_key := some [1], sub_session_key := some [2], aes_size := none } =
      check_with_key concreteExt [2] 7 (mic_checksum_input concreteExt [1, 2, 3] ⟨0, 0, []⟩)
        AesSize.Aes256 [] :=
  validate_mic_token_key_selection concreteExt [0, 0] 7
    { session_key := some [1], sub_session_key := some [2], aes_size := none }
    ⟨0, 0, []⟩ [1, 2, 3] rfl rfl

/-- C3: for every decodable raw token and usable key (and a checksum primitive
that returns a checksum), `validate_mic_token` returns Ok if and only if the
recomputed checksum equals the token's claimed checksum byte for byte, and on
any mismatch it fails with the MessageAltered error. -/
theorem validate_mic_token_checksum_iff (ext : Externals) (raw_token : Bytes) (key_usage : Int)
    (params : EncryptionParams) (token : MicToken) (mech key cs : Bytes)
    (hdec : ext.mic_decode raw_token = .ok token)
    (hmech : ext.mech_list_der = .ok mech)
    (hkey : params.sub_session_key = some key ∨
      (params.sub_session_key = none ∧ params.session_key = some key))
    (hcs : ext.checksum_sha_aes key key_usage (mic_checksum_input ext mech token)
      (params.aes_size.getD AesSize.Aes256) = .ok cs) :
    (validate_mic_token ext raw_token key_usage params = .ok () ↔ cs = token.checksum)
    ∧ (cs ≠ token.checksum →
      validate_mic_token ext raw_token key_usage params =
        .error { kind := .MessageAltered, msg := "bad checksum of the mic token" }) := by
  have hval := validate_usable_key ext raw_token key_usage params token mech key hdec hmech hkey
  rw [hval]
  unfold check_with_key
  rw [hcs]
  simp only [Bind.bind, Except.bind]
  by_cases hc : cs = token.checksum
  · rw [if_neg (fun h => h hc)]
    exact ⟨⟨fun _ => hc, fun _ => rfl⟩, fun hne => absurd hc hne⟩
  · rw [if_pos hc]
    exact ⟨⟨fun h => Except.noConfusion h, fun hc' => absurd hc' hc⟩, fun _ => rfl⟩

/-- Witness for the C3 theorem: the toy checksum of the mechanism list plus
header differs from the token's empty claimed checksum, so verification fails
with MessageAltered. -/
theorem validate_mic_token_checksum_iff_witness :
    validate_mic_token concreteExt [0, 0] 7
      { session_key := none, sub_session_key := some [5], aes_size := none } =
      .error { kind := .MessageAltered, msg := "bad checksum of the mic token" } :=
  (validate_mic_token_checksum_iff concreteExt [0, 0] 7
    { session_key := none, sub_session_key := some [5], aes_size := none }
    ⟨0, 0, []⟩ [1, 2, 3] [5] [5, 1, 2, 3, 0, 0] rfl rfl (Or.inl rfl) rfl).2 (by decide)

/-- C4: `generate_initiator_raw` always invokes the keyed-checksum primitive
with the fixed `INITIATOR_SIGN` key usage and the fixed `Aes256` strength, on
the caller's payload extended with the initiator token's header; it takes no
`EncryptionParams` at all, so no `aes_strength` setting can influence it
(`params.aes_size` is consulted only by `validate_mic_token`). -/
theorem generate_initiator_raw_fixed_usage (ext : Externals) (payload : Bytes)
    (seq_number : Nat) (session_key : Bytes) :
    generate_initiator_raw ext payload seq_number session_key =
      (ext.checksum_sha_aes session_key INITIATOR_SIGN
          (payload ++ ext.mic_header MicToken.with_initiator_flags.flags seq_number)
          AesSize.Aes256).bind
        (fun checksum => ext.mic_encode
          ((MicToken.with_initiator_flags.with_seq_number seq_number).set_checksum checksum)) :=
  rfl

/-- C5: for every decodable raw token and usable key, the input
`validate_mic_token` passes to the keyed-checksum primitive is exactly the
DER encoding of the mechanism list concatenated with the decoded token's
header bytes; it contains neither the token's checksum field (the input is
invariant under changing that field) nor any application message body (the
function receives none). -/
theorem validate_mic_token_checksum_input (ext : Externals) (raw_token : Bytes) (key_usage : Int)
    (params : EncryptionParams) (token : MicToken) (mech key : Bytes)
    (hdec : ext.mic_decode raw_token = .ok token)
    (hmech : ext.mech_list_der = .ok mech)
    (hkey : params.sub_session_key = some key ∨
      (params.sub_session_key = none ∧ params.session_key = some key)) :
    validate_mic_token ext raw_token key_usage params =
      check_with_key ext key key_usage (mech ++ ext.mic_header token.flags token.seq_number)
        (params.aes_size.getD AesSize.Aes256) token.checksum
    ∧ ∀ c, mic_checksum_input ext mech (token.set_checksum c) =
        mic_checksum_input ext mech token :=
  ⟨validate_usable_key ext raw_token key_usage params token mech key hdec hmech hkey,
   fun _ => rfl⟩

/-- Witness for the C5 theorem: the session-key fallback path with Aes128
configured; the checksum input is the mechanism-list bytes followed by the
header bytes. -/
theorem validate_mic_token_checksum_input_witness :
    validate_mic_token concreteExt [3, 4] 7
      { session_key := some [6], sub_session_key := none, aes_size := some AesSize.Aes128 } =
      check_with_key concreteExt [6] 7 ([1, 2, 3] ++ [3, 4]) AesSize.Aes128 [] :=
  (validate_mic_token_checksum_input concreteExt [3, 4] 7
    { session_key := some [6], sub_session_key := none, aes_size := some AesSize.Aes128 }
    ⟨3, 4, []⟩ [1, 2, 3] [6] rfl rfl (Or.inr ⟨rfl, rfl⟩)).1

/-- C1 counterexample: with a round-tripping codec and a deterministic keyed
checksum, a token generated over the payload `[9]` (different from the
DER-encoded mechanism list `[1, 2, 3]`) does NOT re-verify: the verifier
recomputes the checksum over the mechanism list, not over the generator's
payload, so validation fails with MessageAltered even with the same key and
the `INITIATOR_SIGN` key usage. -/
theorem generate_then_validate_cex :
    result_ok (generate_initiator_raw concreteExt [9] 0 []) = some [0, 0, 9, 0, 0]
    ∧ error_kind (validate_mic_token concreteExt [0, 0, 9, 0, 0] INITIATOR_SIGN
        { session_key := none, sub_session_key := some [], aes_size := none })
      = some ErrorKind.MessageAltered := by
  decide

/-- C1 (amended): when the generator's payload equals the DER-encoded
mechanism list that the verifier reconstructs, and the params' effective AES
strength is the Aes256 default, a token produced by `generate_initiator_raw`
re-verifies successfully under the same key (supplied as either key field)
with the `INITIATOR_SIGN` key usage — assuming the external token codec
round-trips; the keyed-checksum primitive is a function here, hence
deterministic. -/
theorem generate_then_validate_roundtrip (ext : Externals) (payload : Bytes)
    (seq_number : Nat) (key : Bytes) (params : EncryptionParams) (mech raw : Bytes)
    (hmech : ext.mech_list_der = .ok mech)
    (hpayload : payload = mech)
    (hrt : ∀ t r, ext.mic_encode t = .ok r → ext.mic_decode r = .ok t)
    (hkey : params.sub_session_key = some key ∨
      (params.sub_session_key = none ∧ params.session_key = some key))
    (haes : params.aes_size.getD AesSize.Aes256 = AesSize.Aes256)
    (hgen : generate_initiator_raw ext payload seq_number key = .ok raw) :
    validate_mic_token ext raw INITIATOR_SIGN params = .ok () := by
  subst hpayload
  unfold generate_initiator_raw at hgen
  simp only [MicToken.with_initiator_flags, MicToken.with_seq_number,
    MicToken.set_checksum] at hgen
  cases hcs : ext.checksum_sha_aes key INITIATOR_SIGN
      (payload ++ ext.mic_header 0 seq_number) AesSize.Aes256 with
  | error e =>
    rw [hcs] at hgen
    simp only [Bind.bind, Except.bind] at hgen
    exact Except.noConfusion hgen
  | ok cs =>
    rw [hcs] at hgen
    simp only [Bind.bind, Except.bind] at hgen
    have hdec := hrt _ _ hgen
    have hval := validate_usable_key ext raw INITIATOR_SIGN params
      { flags := 0, seq_number := seq_number, checksum := cs } payload key hdec hmech hkey
    rw [hval]
    unfold check_with_key mic_checksum_input
    dsimp only
    rw [haes, hcs]
    simp only [Bind.bind, Except.bind]
    rw [if_neg (fun h => h rfl)]
    rfl

/-- Witness for the C1 amended theorem: payload `[1, 2, 3]` (the concrete
mechanism-list encoding), sequence number 5, key `[9]` supplied as the
sub-session key. -/
theorem generate_then_validate_roundtrip_witness :
    validate_mic_token concreteExt [0, 5, 9, 1, 2, 3, 0, 5] INITIATOR_SIGN
      { session_key := none, sub_session_key := some [9], aes_size := none } = .ok () :=
  generate_then_validate_roundtrip concreteExt [1, 2, 3] 5 [9]
    { session_key := none, sub_session_key := some [9], aes_size := none }
    [1, 2, 3] [0, 5, 9, 1, 2, 3, 0, 5] rfl rfl
    (fun t r h => by
      obtain ⟨f, s, c⟩ := t
      injection h with h2
      rw [← h2]
      rfl)
    (Or.inl rfl) rfl rfl

theorem isBoundaryAux_end (s : List Nat) : ∀ (k : Nat), utf8Ok k s = true →
    isBoundaryAux k s s.length = true := by
  induction s with
  | nil =>
    intro k hv
    exact hv
  | cons b rest ih =>
    intro k hv
    simp only [utf8Ok] at hv
    simp only [List.length_cons, isBoundaryAux]
    cases k with
    | zero =>
      cases hcl : charLen b with
      | none => rw [hcl] at hv; exact Bool.noConfusion hv
      | some n => rw [hcl] at hv; exact ih (n - 1) hv
    | succ k =>
      simp only [Bool.and_eq_true] at hv ⊢
      exact ⟨hv.1, ih k hv.2⟩

theorem utf8Ok_slash_boundary (s : List Nat) : ∀ (k d : Nat), utf8Ok k s = true →
    s.get? d = some 47 →
    isBoundaryAux k s d = true ∧ isBoundaryAux k s (d + 1) = true := by
  induction s with
  | nil =>
    intro k d _ hget
    cases hget
  | cons b rest ih =>
    intro k d hv hget
    simp only [utf8Ok] at hv
    cases d with
    | zero =>
      have hb : b = 47 := by simpa using hget
      subst hb
      cases k with
      | zero => exact ⟨rfl, rfl⟩
      | succ k => exact Bool.noConfusion hv
    | succ i =>
      have hgr : rest.get? i = some 47 := by simpa using hget
      cases k with
      | zero =>
        cases hcl : charLen b with
        | none => rw [hcl] at hv; exact Bool.noConfusion hv
        | some n =>
          rw [hcl] at hv
          obtain ⟨h1, h2⟩ := ih (n - 1) i hv hgr
          constructor
          · simp only [isBoundaryAux]
            rw [hcl]
            exact h1
          · simp only [isBoundaryAux]
            rw [hcl]
            exact h2
      | succ k =>
        simp only [Bool.and_eq_true] at hv
        obtain ⟨h1, h2⟩ := ih k i hv.2 hgr
        constructor
        · simp only [isBoundaryAux, Bool.and_eq_true]
          exact ⟨hv.1, h1⟩
        · simp only [isBoundaryAux, Bool.and_eq_true]
          exact ⟨hv.1, h2⟩

theorem isBoundary_end (s : List Nat) (h : validUtf8 s = true) :
    isBoundary s s.length = true :=
  isBoundaryAux_end s 0 h

theorem utf8_slash_boundary (s : List Nat) (d : Nat) (hv : validUtf8 s = true)
    (hget : s.get? d = some 47) :
    isBoundary s d = true ∧ isBoundary s (d + 1) = true :=
  utf8Ok_slash_boundary s 0 d hv hget

/-- C10: `parse_target_name` is total on (the UTF-8 bytes of) every input
string: the byte-level model with checked slicing never panics — it always
returns a result (pair or error), because the divider is the byte index of an
ASCII '/' byte, which in valid UTF-8 always lies on a character boundary, as
does the position one past it. -/
theorem parse_target_name_bytes_total (s : List Nat) (h : validUtf8 s = true) :
    (parse_target_name_bytes s).isSome = true := by
  unfold parse_target_name_bytes
  split
  · rfl
  · rename_i d hfind
    split
    · rfl
    · obtain ⟨hd, a, ha, hpa⟩ := find_first_eq_some _ s d hfind
      have ha47 : a = 47 := of_decide_eq_true hpa
      subst ha47
      obtain ⟨hb1, hb2⟩ := utf8_slash_boundary s d h ha
      have hb0 : isBoundary s 0 = true := rfl
      have hslice1 : str_slice s 0 d = some ((s.drop 0).take (d - 0)) := by
        unfold str_slice
        rw [if_pos ⟨Nat.zero_le d, Nat.le_of_lt hd, hb0, hb1⟩]
      have hslice2 : str_slice s (d + 1) s.length =
          some ((s.drop (d + 1)).take (s.length - (d + 1))) := by
        unfold str_slice
        rw [if_pos ⟨Nat.succ_le_of_lt hd, Nat.le_refl _, hb2, isBoundary_end s h⟩]
      rw [hslice1, hslice2]
      rfl

/-- Witness for the C10 theorem at the UTF-8 bytes of `"E/é"`
(`0xC3 0xA9` is the two-byte encoding of `'é'`). -/
theorem parse_target_name_bytes_total_witness :
    (parse_target_name_bytes [69, 47, 195, 169]).isSome = true :=
  parse_target_name_bytes_total [69, 47, 195, 169] (by decide)

end Sspi
